import Mathlib

/-
Verification of the federation resolver of the go-libravatar library.

The development embeds the Go sources shallowly:

* `Libravatar.baseURL` embeds `baseURL` from `libravatar.go` (the current
  variant): the RFC 2782 weighted selection over SRV records, the single
  record path, and the fallback/error policy.  DNS lookup results and the
  random draw are passed in explicitly; a Go runtime panic is modelled as
  `none`.
* `P0.Libravatar.baseURL` embeds `baseURL` of the historical variant that
  carries the name cache (TTL-bounded memoisation of resolutions); the
  current time and the lookup outcome are passed in explicitly and the
  function additionally reports the updated cache and whether the DNS
  facility was consulted.

Machine integers: SRV weights and the running total are `uint16` in Go, so
cumulative weights are accumulated modulo 2^16.
-/

/-- `time.Hour` expressed in nanoseconds, the unit of Go `time.Duration`. -/
def timeHour : Nat := 3600000000000

/-- Errors surfaced by the Go code: `*net.DNSError` values (carrying their
`IsTimeout` flag) and all other `error` values (e.g. `fmt.Errorf` results). -/
inductive GoErr where
  | dnsError (isTimeout : Bool)
  | generic (msg : String)
deriving DecidableEq, Repr

/-- A DNS SRV record as returned by `net.LookupSRV`. -/
structure SRV where
  target : String
  port : Nat
  priority : Nat
  weight : Nat
deriving DecidableEq, Repr

/-- The local `record` struct of `baseURL` (libravatar.go lines 182-185):
an SRV record tagged with a running cumulative weight. -/
structure Record where
  srv : SRV
  weight : Nat
deriving DecidableEq, Repr

/-- 2^16, the modulus of Go `uint16` arithmetic. -/
def U16 : Nat := 65536

/-- The mutable state of the selection loop in `baseURL`
(libravatar.go lines 187-212): the running `total_weight`, the candidate
`records` list and the `top_priority` value. -/
structure WalkState where
  totalWeight : Nat
  records : List Record
  topPriority : Nat
deriving DecidableEq, Repr

/-- One iteration of the `for _, rr := range addrs` loop
(libravatar.go lines 194-212): records beyond the current top priority are
skipped, a strictly better priority resets the accumulated state, the
running weight is bumped by `rr.Weight` (uint16 arithmetic; `+= 0` leaves
it unchanged), and the tagged record is appended (positive weight) or
prepended (zero weight). -/
def walkStep (s : WalkState) (rr : SRV) : WalkState :=
  if rr.priority > s.topPriority then s
  else
    let s' := if rr.priority < s.topPriority then ⟨0, [], rr.priority⟩ else s
    if rr.weight > 0 then
      let tw := (s'.totalWeight + rr.weight) % U16
      ⟨tw, s'.records ++ [⟨rr, tw⟩], s'.topPriority⟩
    else
      ⟨s'.totalWeight, ⟨rr, s'.totalWeight⟩ :: s'.records, s'.topPriority⟩

/-- The full selection loop, started with `top_priority = addrs[0].Priority`
(libravatar.go line 190). -/
def walk : List SRV → WalkState
  | [] => ⟨0, [], 0⟩
  | a :: rest => (a :: rest).foldl walkStep ⟨0, [], a.priority⟩

/-- The selection of `baseURL` for two or more records
(libravatar.go lines 214-225).  `randnum` stands for the value of
`rand.Intn(int(total_weight))`; `none` models a Go panic: `rand.Intn`
panics when `total_weight` is zero, and formatting a nil `top_record`
panics when no candidate weight reaches `randnum`. -/
def selectSRV (addrs : List SRV) (randnum : Nat) : Option SRV :=
  let s := walk addrs
  match s.records with
  | [r] => some r.srv
  | rs =>
    if s.totalWeight = 0 then none
    else (rs.find? (fun rr => decide (rr.weight ≥ randnum))).map (fun rr => rr.srv)

/-! ### The selection algorithm as worded by the spec (section 4.3)

These definitions follow the spec text, to be compared with the embedding
of the code above: first the top-priority tier is carved out of the record
list, then the candidate list is built by a single walk over the tier
(zero-weight records prepended tagged with the current cumulative weight,
positive-weight records appended tagged with the updated one), and finally
a single candidate is selected directly while a longer list is indexed by
the random draw. -/

/-- Lowest priority value present, starting from a default `p`. -/
def minPrioFrom (p : Nat) : List SRV → Nat
  | [] => p
  | x :: xs => minPrioFrom (min p x.priority) xs

/-- The top-priority tier: the records carrying the lowest priority value
present, in original order. -/
def tierOf : List SRV → List SRV
  | [] => []
  | a :: rest =>
    (a :: rest).filter (fun x => decide (x.priority = minPrioFrom a.priority rest))

/-- One step of the candidate-list construction of spec section 4.3 step 2,
acting on the pair (candidate list, cumulative weight `W`). -/
def specStep : List Record × Nat → SRV → List Record × Nat
  | (cands, w), rec =>
    if rec.weight = 0 then (⟨rec, w⟩ :: cands, w)
    else
      let w' := (w + rec.weight) % U16
      (cands ++ [⟨rec, w'⟩], w')

/-- Candidate list and final cumulative weight for the top-priority tier. -/
def specCandidates (addrs : List SRV) : List Record × Nat :=
  (tierOf addrs).foldl specStep ([], 0)

/-- Spec section 4.3 steps 3-4: a single candidate is selected directly,
otherwise the first candidate (in constructed order) whose tag is `≥ r`. -/
def specSelect (addrs : List SRV) (r : Nat) : Option SRV :=
  match specCandidates addrs with
  | ([c], _) => some c.srv
  | (cands, _) => (cands.find? (fun c => decide (c.weight ≥ r))).map (fun c => c.srv)

/-! ### The one-pass loop of the code computes the spec's tier-then-fold -/

lemma minPrioFrom_le : ∀ (l : List SRV) (p : Nat), minPrioFrom p l ≤ p
  | [], _ => le_refl _
  | x :: xs, p =>
    le_trans (minPrioFrom_le xs (min p x.priority)) (min_le_left _ _)

lemma minPrioFrom_le_of_mem :
    ∀ (l : List SRV) (p : Nat) (x : SRV), x ∈ l → minPrioFrom p l ≤ x.priority
  | y :: ys, p, x, h => by
    rcases List.mem_cons.mp h with h1 | h2
    · subst h1
      exact le_trans (minPrioFrom_le ys _) (min_le_right _ _)
    · exact minPrioFrom_le_of_mem ys _ x h2

lemma walkStep_skip (s : WalkState) (x : SRV) (h : s.topPriority < x.priority) :
    walkStep s x = s := by
  simp [walkStep, h]

lemma walkStep_keep (recs : List Record) (tw p : Nat) (x : SRV) (h : x.priority = p) :
    walkStep ⟨tw, recs, p⟩ x = ⟨(specStep (recs, tw) x).2, (specStep (recs, tw) x).1, p⟩ := by
  subst h
  by_cases hw : x.weight = 0 <;>
    simp [walkStep, specStep, hw, Nat.pos_of_ne_zero]

lemma walkStep_reset (recs : List Record) (tw p : Nat) (x : SRV) (h : x.priority < p) :
    walkStep ⟨tw, recs, p⟩ x =
      ⟨(specStep ([], 0) x).2, (specStep ([], 0) x).1, x.priority⟩ := by
  have hng : ¬ p < x.priority := by omega
  by_cases hw : x.weight = 0 <;>
    simp [walkStep, specStep, hw, h, hng, Nat.pos_of_ne_zero]

lemma foldl_walkStep (l : List SRV) : ∀ (p tw : Nat) (recs : List Record),
    l.foldl walkStep ⟨tw, recs, p⟩ =
      ⟨((l.filter fun x => decide (x.priority = minPrioFrom p l)).foldl specStep
          (if minPrioFrom p l = p then (recs, tw) else ([], 0))).2,
       ((l.filter fun x => decide (x.priority = minPrioFrom p l)).foldl specStep
          (if minPrioFrom p l = p then (recs, tw) else ([], 0))).1,
       minPrioFrom p l⟩ := by
  induction l with
  | nil =>
    intro p tw recs
    simp [minPrioFrom]
  | cons x xs ih =>
    intro p tw recs
    rw [List.foldl_cons]
    rcases lt_trichotomy x.priority p with hlt | heq | hgt
    · -- strictly better priority: the loop state is reset at `x`
      rw [walkStep_reset recs tw p x hlt, ih]
      have hm : minPrioFrom p (x :: xs) = minPrioFrom x.priority xs := by
        simp [minPrioFrom, min_eq_right (le_of_lt hlt)]
      have hM2p : minPrioFrom x.priority xs ≤ x.priority := minPrioFrom_le xs _
      have hMne : ¬ minPrioFrom p (x :: xs) = p := by omega
      rw [hm, List.filter_cons]
      have hxp : ¬ x.priority = p := by omega
      by_cases hc : minPrioFrom x.priority xs = x.priority
      · simp only [hm] at hMne
        simp [hc, hMne, hxp]
      · have hxne : ¬ x.priority = minPrioFrom x.priority xs := fun h => hc h.symm
        simp only [hm] at hMne
        simp [hc, hxne, hMne, hxp]
    · -- same priority: `x` is folded into the accumulated state
      rw [walkStep_keep recs tw p x heq, ih]
      have hm : minPrioFrom p (x :: xs) = minPrioFrom p xs := by
        simp [minPrioFrom, heq]
      rw [hm, List.filter_cons]
      by_cases hc : minPrioFrom p xs = p
      · have hx : x.priority = minPrioFrom p xs := by omega
        simp [hc, hx]
      · have hMlt : minPrioFrom p xs ≤ p := minPrioFrom_le xs _
        have hxne : ¬ x.priority = minPrioFrom p xs := by omega
        simp [hc, hxne]
    · -- worse priority: `x` is skipped
      rw [walkStep_skip _ x hgt, ih]
      have hm : minPrioFrom p (x :: xs) = minPrioFrom p xs := by
        simp [minPrioFrom, min_eq_left (le_of_lt hgt)]
      have hMlt : minPrioFrom p xs ≤ p := minPrioFrom_le xs _
      have hxne : ¬ x.priority = minPrioFrom p xs := by omega
      rw [hm, List.filter_cons]
      simp [hxne]

/-- The code's loop state after processing a nonempty record list: exactly the
candidate list and cumulative weight the spec builds over the top-priority
tier, with the tier's priority as `top_priority`. -/
lemma walk_eq_spec (a : SRV) (rest : List SRV) :
    walk (a :: rest) =
      ⟨(specCandidates (a :: rest)).2, (specCandidates (a :: rest)).1,
        minPrioFrom a.priority rest⟩ := by
  rw [walk, foldl_walkStep]
  have hm : minPrioFrom a.priority (a :: rest) = minPrioFrom a.priority rest := by
    simp [minPrioFrom]
  rw [specCandidates, tierOf]
  rw [hm]
  by_cases hc : minPrioFrom a.priority rest = a.priority <;> simp [hc, hm]

lemma mem_foldl_specStep :
    ∀ (l : List SRV) (acc : List Record × Nat) (c : Record),
      c ∈ (l.foldl specStep acc).1 → c ∈ acc.1 ∨ c.srv ∈ l
  | [], _, _, h => Or.inl h
  | x :: xs, acc, c, h => by
    rw [List.foldl_cons] at h
    rcases mem_foldl_specStep xs (specStep acc x) c h with h1 | h2
    · rcases acc with ⟨cands, w⟩
      by_cases hw : x.weight = 0
      · simp [specStep, hw, List.mem_cons] at h1
        rcases h1 with h1 | h1
        · subst h1; exact Or.inr (List.mem_cons_self x xs)
        · exact Or.inl h1
      · simp [specStep, hw, List.mem_append] at h1
        rcases h1 with h1 | h1
        · exact Or.inl h1
        · subst h1; exact Or.inr (List.mem_cons_self x xs)
    · exact Or.inr (List.mem_cons_of_mem _ h2)

/-- C1: the weighted selector of `baseURL` follows the RFC 2782 reference
algorithm as described in spec section 4.3: over the top-priority tier it
builds the candidate list by prepending each weight-0 record tagged with the
current cumulative weight and appending each positive-weight record tagged
with the updated cumulative weight; a single candidate is selected directly,
and otherwise, for a draw `r` in `[0, W)`, the first candidate in list order
whose tag is `≥ r` is selected. -/
theorem selectSRV_follows_rfc2782 (addrs : List SRV) (r : Nat)
    (hlen : 2 ≤ addrs.length)
    (hdef : (specCandidates addrs).1.length = 1 ∨ r < (specCandidates addrs).2) :
    selectSRV addrs r = specSelect addrs r := by
  obtain ⟨a, rest, rfl⟩ : ∃ a rest, addrs = a :: rest := by
    cases addrs with
    | nil => simp at hlen
    | cons a rest => exact ⟨a, rest, rfl⟩
  rcases hsc : specCandidates (a :: rest) with ⟨cands, W⟩
  rw [hsc] at hdef
  simp only [selectSRV, specSelect, walk_eq_spec, hsc]
  rcases cands with _ | ⟨c1, _ | ⟨c2, cs⟩⟩
  · by_cases hW : W = 0 <;> simp [hW]
  · rfl
  · rcases hdef with h1 | h2
    · simp at h1
    · have hW : ¬ W = 0 := by omega
      simp [hW]

/-- C4: whenever the selector returns a record, that record carries the
lowest priority value present in the input list; no record of a strictly
greater priority is ever returned. -/
theorem selectSRV_respects_priority (addrs : List SRV) (r : Nat) (rec : SRV)
    (h : selectSRV addrs r = some rec) :
    ∀ a ∈ addrs, rec.priority ≤ a.priority := by
  match addrs with
  | [] => simp [selectSRV, walk] at h
  | a :: rest =>
    rcases hsc : specCandidates (a :: rest) with ⟨cands, W⟩
    simp only [selectSRV, walk_eq_spec, hsc] at h
    have hmem : ∃ c : Record, c ∈ cands ∧ c.srv = rec := by
      rcases cands with _ | ⟨c1, _ | ⟨c2, cs⟩⟩
      · by_cases hW : W = 0 <;> simp [hW] at h
      · simp at h
        exact ⟨c1, List.mem_singleton.mpr rfl, h⟩
      · by_cases hW : W = 0
        · simp [hW] at h
        · have h' : (if W = 0 then none else
              Option.map (fun rr => rr.srv)
                (List.find? (fun rr => decide (rr.weight ≥ r)) (c1 :: c2 :: cs))) =
                some rec := h
          rw [if_neg hW] at h'
          obtain ⟨c, hfind, hcs⟩ := Option.map_eq_some'.mp h'
          exact ⟨c, List.mem_of_find?_eq_some hfind, hcs⟩
    obtain ⟨c, hc, rfl⟩ := hmem
    have hin : c ∈ (specCandidates (a :: rest)).1 := by rw [hsc]; exact hc
    rw [specCandidates] at hin
    rcases mem_foldl_specStep (tierOf (a :: rest)) ([], 0) c hin with h0 | htier
    · simp at h0
    · rw [tierOf] at htier
      have hpr : c.srv.priority = minPrioFrom a.priority rest :=
        of_decide_eq_true (List.mem_filter.mp htier).2
      intro x hx
      rw [hpr]
      rcases List.mem_cons.mp hx with rfl | hx2
      · exact minPrioFrom_le rest x.priority
      · exact minPrioFrom_le_of_mem rest a.priority x hx2

/-! ### Concrete record lists used by the checks below -/

def demoA : SRV := ⟨"one.example.com.", 8080, 0, 3⟩

def demoB : SRV := ⟨"two.example.com.", 8081, 0, 4⟩

def zrecA : SRV := ⟨"a.example.com.", 80, 0, 0⟩

def zrecB : SRV := ⟨"b.example.com.", 80, 0, 0⟩

def bigRec : SRV := ⟨"big.example.com.", 80, 0, 10⟩

def zeroRec : SRV := ⟨"zero.example.com.", 80, 0, 0⟩

def prio1Rec : SRV := ⟨"p1.example.com.", 80, 1, 5⟩

def prio2Rec : SRV := ⟨"p2.example.com.", 80, 2, 5⟩

/-- C1 witness: on a two-record tier with weights 3 and 4 and draw 5, the
code selection and the spec selection coincide. -/
theorem selectSRV_follows_rfc2782_witness :
    2 ≤ ([demoA, demoB] : List SRV).length ∧
    5 < (specCandidates [demoA, demoB]).2 ∧
    selectSRV [demoA, demoB] 5 = specSelect [demoA, demoB] 5 :=
  ⟨by decide, by decide,
    selectSRV_follows_rfc2782 [demoA, demoB] 5 (by decide) (Or.inr (by decide))⟩

/-- C2: with two (or more) zero-weight records in the top-priority tier,
`total_weight` stays 0 and `baseURL` executes `rand.Intn(0)`, which panics
at runtime (modelled as `none`): the code implements no policy for the
all-zero tier, for any conceivable draw value. -/
theorem selectSRV_all_zero_panics : ∀ r : Nat, selectSRV [zrecA, zrecB] r = none :=
  fun _ => rfl

/-- C3: with the weight-10 record first and the weight-0 record second in
the same tier, the weight-0 record is prepended tagged with cumulative
weight 10, so every draw in `[0, 10)` selects it: the weight-10 record is
never the outcome in this input order. -/
theorem selectSRV_starves_nonzero :
    ∀ r : Nat, r < 10 → selectSRV [bigRec, zeroRec] r = some zeroRec := by
  decide

/-- C3 witness: the starvation fact evaluated at draw 0. -/
theorem selectSRV_starves_nonzero_witness :
    0 < 10 ∧ selectSRV [bigRec, zeroRec] 0 = some zeroRec :=
  ⟨by decide, selectSRV_starves_nonzero 0 (by decide)⟩

/-- C4 witness: with a priority-2 record listed before a priority-1 record,
the priority-1 record is selected and its priority bounds the other. -/
theorem selectSRV_respects_priority_witness :
    selectSRV [prio2Rec, prio1Rec] 0 = some prio1Rec ∧
    prio1Rec.priority ≤ prio2Rec.priority :=
  ⟨rfl, selectSRV_respects_priority [prio2Rec, prio1Rec] 0 prio1Rec rfl prio2Rec
    (List.mem_cons_self prio2Rec [prio1Rec])⟩

/-! ### The `Libravatar` handle of libravatar.go and its `baseURL` -/

/-- The cache key type of libravatar.go (unused by its `baseURL`). -/
structure cacheKey where
  service : String
  domain : String
deriving DecidableEq, Repr

/-- A cached resolution: target and the time it was obtained. -/
structure cacheValue where
  target : String
  checkedAt : Nat
deriving DecidableEq, Repr

/-- The `Libravatar` handle of libravatar.go (lines 56-69); times and
durations are in nanoseconds as Go `time.Duration`. -/
structure Libravatar where
  defUrl : String
  picSize : Int
  fallbackHost : String
  secureFallbackHost : String
  useHTTPS : Bool
  nameCache : List (cacheKey × cacheValue)
  nameCacheDuration : Nat
  minAvatarSize : Nat
  maxAvatarSize : Nat
  AvatarSize : Nat
  serviceBase : String
  secureServiceBase : String
deriving DecidableEq, Repr

/-- `New` of libravatar.go (lines 72-86): defaults, no parameters, no
validation. -/
def New : Libravatar :=
  { defUrl := "", picSize := 0,
    fallbackHost := "cdn.libravatar.org",
    secureFallbackHost := "seccdn.libravatar.org",
    useHTTPS := false,
    nameCache := [],
    nameCacheDuration := 24 * timeHour,
    minAvatarSize := 1, maxAvatarSize := 512, AvatarSize := 0,
    serviceBase := "avatars", secureServiceBase := "avatars-sec" }

/-- `SetFallbackHost` (libravatar.go lines 90-92): an unconditional field
update, with no validation and no error channel. -/
def Libravatar.SetFallbackHost (v : Libravatar) (host : String) : Libravatar :=
  { v with fallbackHost := host }

/-- `SetUseHTTPS` (libravatar.go lines 95-97). -/
def Libravatar.SetUseHTTPS (v : Libravatar) (use : Bool) : Libravatar :=
  { v with useHTTPS := use }

/-- `strings.TrimSuffix(target, ".")`: drop one trailing dot if present
(the dot is a single-byte character, so suffix removal is removal of the
last character of the character list). -/
def trimDot (s : String) : String :=
  if s.data.getLast? = some '.' then ⟨s.data.dropLast⟩ else s

/-- `baseURL` of libravatar.go (lines 156-231).  The outcome of
`net.LookupSRV` is passed in as the error value `lookErr` and the record
list `addrs`; `randnum` stands for the random draw of the multi-record
path.  `none` models a Go panic: the unchecked `err.(*net.DNSError)` type
assertion on a foreign error value, or a panic inside the selection. -/
def Libravatar.baseURL (v : Libravatar) (lookErr : Option GoErr) (addrs : List SRV)
    (randnum : Nat) : Option (Except GoErr String) :=
  let protocol := if v.useHTTPS then "https://" else "http://"
  let dom := if v.useHTTPS then v.secureFallbackHost else v.fallbackHost
  match lookErr with
  | some (GoErr.generic _) => none
  | some (GoErr.dnsError true) => some (Except.error (GoErr.dnsError true))
  | _ =>
    match addrs with
    | [a] => some (Except.ok (protocol ++ trimDot a.target))
    | _ :: _ :: _ =>
      match selectSRV addrs randnum with
      | some rec => some (Except.ok (protocol ++ rec.target ++ ":" ++ toString rec.port))
      | none => none
    | [] => some (Except.ok (protocol ++ dom))

/-- C8: a single-record lookup yields scheme + target with the trailing dot
stripped and no port, while the multi-record path yields scheme +
`target:port` of the selected record (dot untouched). -/
theorem baseURL_port_policy :
    (∀ (v : Libravatar) (a : SRV) (r : Nat),
      v.baseURL none [a] r =
        some (Except.ok
          ((if v.useHTTPS then "https://" else "http://") ++ trimDot a.target))) ∧
    (∀ (v : Libravatar) (addrs : List SRV) (r : Nat) (rec : SRV),
      2 ≤ addrs.length → selectSRV addrs r = some rec →
      v.baseURL none addrs r =
        some (Except.ok
          ((if v.useHTTPS then "https://" else "http://") ++
            rec.target ++ ":" ++ toString rec.port))) := by
  constructor
  · intro v a r
    rfl
  · intro v addrs r rec hlen hsel
    match addrs, hlen with
    | a :: b :: rest, _ =>
      simp only [Libravatar.baseURL, hsel]

/-- C8 witness: the spec's `kbt.io` example (single record, bare host, no
port) next to a two-record selection carrying its `:port` suffix. -/
theorem baseURL_port_policy_witness :
    Libravatar.baseURL New none [⟨"avatars.kbt.io", 80, 0, 0⟩] 0 =
      some (Except.ok "http://avatars.kbt.io") ∧
    Libravatar.baseURL New none [demoA, demoB] 5 =
      some (Except.ok "http://two.example.com.:8081") := by
  constructor
  · have h := baseURL_port_policy.1 New ⟨"avatars.kbt.io", 80, 0, 0⟩ 0
    exact h
  · have h := baseURL_port_policy.2 New [demoA, demoB] 5 demoB (by decide) (by rfl)
    exact h

/-- C9 counterexample: configuring an empty fallback host is accepted, not
rejected — `SetFallbackHost` has no error channel, the empty host is stored,
and the invalid value is only felt at first use, when a not-found fallback
resolution produces the bare scheme string. -/
theorem SetFallbackHost_accepts_empty :
    (New.SetFallbackHost "").fallbackHost = "" ∧
    (New.SetFallbackHost "").baseURL (some (GoErr.dnsError false)) [] 0 =
      some (Except.ok "http://") :=
  ⟨rfl, rfl⟩

/-- C9 amended: no construction- or configuration-time validation exists:
`New` takes no parameters and always succeeds with the default
configuration (fallback host `cdn.libravatar.org`, TTL fixed at 24 hours,
no TTL setter), and `SetFallbackHost` stores any string — the empty string
included — without error. -/
theorem New_no_validation :
    New.fallbackHost = "cdn.libravatar.org" ∧
    New.nameCacheDuration = 24 * timeHour ∧
    ∀ (v : Libravatar) (host : String), (v.SetFallbackHost host).fallbackHost = host :=
  ⟨rfl, rfl, fun _ _ => rfl⟩

/-- C10: when `net.LookupSRV` reports a non-nil error that is not a
`*net.DNSError`, the unconditional type assertion in `baseURL` panics
(modelled as `none`) instead of returning the error, for every
configuration, record list and draw. -/
theorem baseURL_panics_on_foreign_error :
    ∀ (v : Libravatar) (addrs : List SRV) (r : Nat) (msg : String),
      v.baseURL (some (GoErr.generic msg)) addrs r = none :=
  fun _ _ _ _ => rfl

/-! ### The cached historical variant (src/unnamed/part_000) -/

namespace P0

/-- The `Libravatar` handle of the cached historical variant
(part_000 lines 48-56). -/
structure Libravatar where
  defUrl : String
  picSize : Int
  useDomain : Bool
  useHTTPS : Bool
  fallbackHost : String
  nameCache : List (cacheKey × cacheValue)
  nameCacheDuration : Nat
deriving DecidableEq, Repr

/-- `New` of the cached variant (part_000 lines 59-66). -/
def New : Libravatar :=
  { defUrl := "", picSize := 0, useDomain := false, useHTTPS := false,
    fallbackHost := "cdn.libravatar.org", nameCache := [],
    nameCacheDuration := 24 * timeHour }

/-- Go map lookup `val, found := v.nameCache[key]`, on the association-list
model of the map (the most recent insertion for a key shadows older ones). -/
def cacheGet (c : List (cacheKey × cacheValue)) (k : cacheKey) : Option cacheValue :=
  (c.find? (fun p => decide (p.1 = k))).map (fun p => p.2)

/-- Go map update `v.nameCache[key] = val`. -/
def cachePut (c : List (cacheKey × cacheValue)) (k : cacheKey) (val : cacheValue) :
    List (cacheKey × cacheValue) :=
  (k, val) :: c

/-- The hit condition of part_000 line 109,
`found && now.Sub(val.checkedAt) <= v.nameCacheDuration`: the entry served
from the cache, if there is one and it is fresh. -/
def freshVal (c : List (cacheKey × cacheValue)) (k : cacheKey) (now ttl : Nat) :
    Option cacheValue :=
  match cacheGet c k with
  | some val => if now - val.checkedAt ≤ ttl then some val else none
  | none => none

/-- Result of a `baseURL` call of the cached variant: the returned value
(`none` modelling a panic), the cache after the call, and whether the DNS
facility was consulted. -/
structure Outcome where
  result : Option (Except GoErr String)
  cache : List (cacheKey × cacheValue)
  queried : Bool
deriving Repr

/-- The cache key built by `baseURL` for a protocol class and domain. -/
def keyOf (useHTTPS : Bool) (domain : String) : cacheKey :=
  ⟨if useHTTPS then "avatars-sec" else "avatars", domain⟩

/-- The URL scheme chosen by `baseURL` for a protocol class. -/
def schemeOf (useHTTPS : Bool) : String :=
  if useHTTPS then "https://" else "http://"

/-- The DNS branch of `baseURL` (the else-block at part_000 lines 112-145),
taken on a cache miss or an expired entry: a foreign error type panics on
the `e.(*net.DNSError)` assertion (modelled as `none`); a timeout is
returned as an error with the cache untouched; any other lookup error
falls back to the configured fallback host and caches it; an empty record
list is the error `"empty SRV response"` with the cache untouched; and a
nonempty list resolves to the first record's target with its last
character stripped (`tgt[:len(tgt)-1]`, a panic on an empty target) and
caches that target. -/
def lookupSRV (v : Libravatar) (key : cacheKey) (url : String) (now : Nat) :
    Option GoErr → List SRV → Outcome
  | some (GoErr.generic _), _ => ⟨none, v.nameCache, true⟩
  | some (GoErr.dnsError true), _ =>
      ⟨some (Except.error (GoErr.dnsError true)), v.nameCache, true⟩
  | some (GoErr.dnsError false), _ =>
      ⟨some (Except.ok (url ++ v.fallbackHost)),
        cachePut v.nameCache key ⟨v.fallbackHost, now⟩, true⟩
  | none, [] =>
      ⟨some (Except.error (GoErr.generic "empty SRV response")), v.nameCache, true⟩
  | none, a :: _ =>
      if a.target.data.isEmpty then ⟨none, v.nameCache, true⟩
      else
        let tgt : String := ⟨a.target.data.dropLast⟩
        ⟨some (Except.ok (url ++ tgt)), cachePut v.nameCache key ⟨tgt, now⟩, true⟩

/-- `baseURL(domain, useHTTPS)` of the cached variant (part_000 lines
93-148).  `now` is the current time in nanoseconds; the `net.LookupSRV`
outcome is injected as `lookErr`/`lookAddrs` and matters only when the
function actually queries DNS: a fresh cache entry is served directly with
no DNS traffic, and otherwise the call proceeds to the DNS branch
`lookupSRV`. -/
def Libravatar.baseURL (v : Libravatar) (domain : String) (useHTTPS : Bool)
    (now : Nat) (lookErr : Option GoErr) (lookAddrs : List SRV) : Outcome :=
  match freshVal v.nameCache (keyOf useHTTPS domain) now v.nameCacheDuration with
  | some val => ⟨some (Except.ok (schemeOf useHTTPS ++ val.target)), v.nameCache, false⟩
  | none => lookupSRV v (keyOf useHTTPS domain) (schemeOf useHTTPS) now lookErr lookAddrs

lemma cacheGet_cachePut (c : List (cacheKey × cacheValue)) (k : cacheKey)
    (val : cacheValue) : cacheGet (cachePut c k val) k = some val := by
  simp [cacheGet, cachePut, List.find?_cons]

lemma freshVal_of_get (c : List (cacheKey × cacheValue)) (k : cacheKey)
    (now ttl : Nat) (val : cacheValue) (h : cacheGet c k = some val)
    (hle : now - val.checkedAt ≤ ttl) : freshVal c k now ttl = some val := by
  simp [freshVal, h, hle]

lemma freshVal_spec (c : List (cacheKey × cacheValue)) (k : cacheKey)
    (now ttl : Nat) (val : cacheValue) (h : freshVal c k now ttl = some val) :
    cacheGet c k = some val ∧ now - val.checkedAt ≤ ttl := by
  unfold freshVal at h
  rcases heq : cacheGet c k with _ | v2 <;> rw [heq] at h
  · simp at h
  · have h2 : (if now - v2.checkedAt ≤ ttl then some v2 else none) = some val := h
    by_cases hle : now - v2.checkedAt ≤ ttl
    · rw [if_pos hle] at h2
      cases h2
      exact ⟨rfl, hle⟩
    · rw [if_neg hle] at h2
      cases h2

lemma freshVal_stale (c : List (cacheKey × cacheValue)) (k : cacheKey)
    (now ttl : Nat) (val : cacheValue) (h : cacheGet c k = some val)
    (hgt : ttl < now - val.checkedAt) : freshVal c k now ttl = none := by
  show (match cacheGet c k with
    | some val => if now - val.checkedAt ≤ ttl then some val else none
    | none => none) = none
  rw [h]
  show (if now - val.checkedAt ≤ ttl then some val else none) = none
  rw [if_neg (by omega)]

lemma baseURL_hit (v : Libravatar) (domain : String) (s : Bool) (now : Nat)
    (e : Option GoErr) (a : List SRV) (val : cacheValue)
    (h : freshVal v.nameCache (keyOf s domain) now v.nameCacheDuration = some val) :
    v.baseURL domain s now e a =
      ⟨some (Except.ok (schemeOf s ++ val.target)), v.nameCache, false⟩ := by
  simp only [Libravatar.baseURL, h]

lemma baseURL_miss (v : Libravatar) (domain : String) (s : Bool) (now : Nat)
    (e : Option GoErr) (a : List SRV)
    (h : freshVal v.nameCache (keyOf s domain) now v.nameCacheDuration = none) :
    v.baseURL domain s now e a = lookupSRV v (keyOf s domain) (schemeOf s) now e a := by
  simp only [Libravatar.baseURL, h]

lemma lookupSRV_queried (v : Libravatar) (key : cacheKey) (url : String) (now : Nat)
    (e : Option GoErr) (a : List SRV) : (lookupSRV v key url now e a).queried = true := by
  match e, a with
  | some (GoErr.generic m), a => rfl
  | some (GoErr.dnsError true), a => rfl
  | some (GoErr.dnsError false), a => rfl
  | none, [] => rfl
  | none, a :: rest =>
    simp only [lookupSRV]
    by_cases hemp : a.target.data.isEmpty
    · rw [if_pos hemp]
    · rw [if_neg hemp]

lemma lookupSRV_ok_entry (v : Libravatar) (key : cacheKey) (url : String) (now : Nat)
    (e : Option GoErr) (a : List SRV) (u : String)
    (c2 : List (cacheKey × cacheValue)) (q2 : Bool)
    (h : lookupSRV v key url now e a = ⟨some (Except.ok u), c2, q2⟩) :
    ∃ val, cacheGet c2 key = some val ∧ val.checkedAt = now ∧ u = url ++ val.target := by
  match e, a with
  | some (GoErr.generic m), a => simp [lookupSRV] at h
  | some (GoErr.dnsError true), a => simp [lookupSRV] at h
  | some (GoErr.dnsError false), a =>
    simp only [lookupSRV, Outcome.mk.injEq] at h
    obtain ⟨h1, h2, -⟩ := h
    refine ⟨⟨v.fallbackHost, now⟩, ?_, rfl, ?_⟩
    · rw [← h2]
      exact cacheGet_cachePut _ _ _
    · simp only [Option.some.injEq, Except.ok.injEq] at h1
      exact h1.symm
  | none, [] => simp [lookupSRV] at h
  | none, a :: rest =>
    simp only [lookupSRV] at h
    by_cases hemp : a.target.data.isEmpty
    · rw [if_pos hemp] at h
      rw [Outcome.mk.injEq] at h
      simp at h
    · rw [if_neg hemp] at h
      rw [Outcome.mk.injEq] at h
      obtain ⟨h1, h2, -⟩ := h
      refine ⟨⟨⟨a.target.data.dropLast⟩, now⟩, ?_, rfl, ?_⟩
      · rw [← h2]
        exact cacheGet_cachePut _ _ _
      · simp only [Option.some.injEq, Except.ok.injEq] at h1
        exact h1.symm

/-- The temporal cache contract asserted by C5, about the cache state `c1`
and URL `u` produced by a completed resolution of the key for `(s, domain)`:
an entry for the key exists and determines `u`; any call while
`now - checkedAt ≤ TTL` is served from the entry — the identical URL, no
DNS query, cache unchanged; any call once the entry is older than TTL
consults DNS, and if it completes it leaves an entry re-stamped with the
new time. -/
def cacheTemporal (v : Libravatar) (domain : String) (s : Bool)
    (u : String) (c1 : List (cacheKey × cacheValue)) : Prop :=
  ∃ val, cacheGet c1 (keyOf s domain) = some val ∧
    u = schemeOf s ++ val.target ∧
    (∀ (t1 : Nat) (e1 : Option GoErr) (a1 : List SRV),
      t1 - val.checkedAt ≤ v.nameCacheDuration →
      Libravatar.baseURL { v with nameCache := c1 } domain s t1 e1 a1 =
        ⟨some (Except.ok u), c1, false⟩) ∧
    (∀ (t1 : Nat) (e1 : Option GoErr) (a1 : List SRV),
      v.nameCacheDuration < t1 - val.checkedAt →
      (Libravatar.baseURL { v with nameCache := c1 } domain s t1 e1 a1).queried = true ∧
      ∀ (u1 : String) (c2 : List (cacheKey × cacheValue)) (q2 : Bool),
        Libravatar.baseURL { v with nameCache := c1 } domain s t1 e1 a1 =
          ⟨some (Except.ok u1), c2, q2⟩ →
        ∃ val1, cacheGet c2 (keyOf s domain) = some val1 ∧ val1.checkedAt = t1)

lemma cacheTemporal_of_entry (v : Libravatar) (domain : String) (s : Bool)
    (u : String) (c1 : List (cacheKey × cacheValue)) (val : cacheValue)
    (hget : cacheGet c1 (keyOf s domain) = some val)
    (hu : u = schemeOf s ++ val.target) :
    cacheTemporal v domain s u c1 := by
  refine ⟨val, hget, hu, ?_, ?_⟩
  · intro t1 e1 a1 ht
    have hfresh : freshVal c1 (keyOf s domain) t1 v.nameCacheDuration = some val :=
      freshVal_of_get _ _ _ _ _ hget ht
    rw [hu]
    exact baseURL_hit { v with nameCache := c1 } domain s t1 e1 a1 val hfresh
  · intro t1 e1 a1 ht
    have hstale : freshVal c1 (keyOf s domain) t1 v.nameCacheDuration = none :=
      freshVal_stale _ _ _ _ _ hget ht
    have hm := baseURL_miss { v with nameCache := c1 } domain s t1 e1 a1 hstale
    constructor
    · rw [hm]
      exact lookupSRV_queried _ _ _ _ _ _
    · intro u1 c2 q2 hres
      rw [hm] at hres
      obtain ⟨val1, hg1, hc1, -⟩ := lookupSRV_ok_entry _ _ _ _ _ _ _ _ _ hres
      exact ⟨val1, hg1, hc1⟩

/-- C5: after any completed resolution of a key by the cached variant
(whose default TTL is 24 hours), the cache holds an entry for that key
that determines the returned base URL; a second resolution within the TTL
window (`now - checkedAt ≤ TTL`) returns the identical base URL with no
DNS query and no cache change — the entry is used exactly when its age is
within TTL — and once older than TTL the next resolution performs a DNS
query and, when it completes, overwrites the entry with the new
timestamp. -/
theorem baseURL_cache_ttl (v : Libravatar) (domain : String) (s : Bool)
    (t0 : Nat) (e0 : Option GoErr) (a0 : List SRV) (u : String)
    (c1 : List (cacheKey × cacheValue)) (q1 : Bool)
    (h : v.baseURL domain s t0 e0 a0 = ⟨some (Except.ok u), c1, q1⟩) :
    New.nameCacheDuration = 24 * timeHour ∧ cacheTemporal v domain s u c1 := by
  refine ⟨rfl, ?_⟩
  rcases hf : freshVal v.nameCache (keyOf s domain) t0 v.nameCacheDuration with _ | val
  · rw [baseURL_miss v domain s t0 e0 a0 hf] at h
    obtain ⟨val, hg, -, hu⟩ := lookupSRV_ok_entry _ _ _ _ _ _ _ _ _ h
    exact cacheTemporal_of_entry v domain s u c1 val hg hu
  · rw [baseURL_hit v domain s t0 e0 a0 val hf] at h
    rw [Outcome.mk.injEq] at h
    obtain ⟨h1, h2, -⟩ := h
    simp only [Option.some.injEq, Except.ok.injEq] at h1
    obtain ⟨hgv, -⟩ := freshVal_spec _ _ _ _ _ hf
    refine cacheTemporal_of_entry v domain s u c1 val ?_ h1.symm
    rw [← h2]
    exact hgv

/-- C5 witness: a not-found resolution at time 0 on a fresh handle caches
the fallback host, and the resulting state satisfies the temporal cache
contract for the key. -/
theorem baseURL_cache_ttl_witness :
    New.nameCacheDuration = 24 * timeHour ∧
    cacheTemporal New "example.org" false "http://cdn.libravatar.org"
      (cachePut [] (keyOf false "example.org") ⟨"cdn.libravatar.org", 0⟩) :=
  baseURL_cache_ttl New "example.org" false 0 (some (GoErr.dnsError false)) []
    "http://cdn.libravatar.org"
    (cachePut [] (keyOf false "example.org") ⟨"cdn.libravatar.org", 0⟩) true rfl

/-- C6: when DNS is actually consulted (no fresh cache entry for the key)
and the lookup outcome is a timeout, or succeeds with zero records,
`baseURL` returns an error and leaves the cache exactly as it was: no
entry is created or overwritten. -/
theorem baseURL_error_no_cache (v : Libravatar) (domain : String) (s : Bool)
    (now : Nat) (a : List SRV)
    (hmiss : freshVal v.nameCache (keyOf s domain) now v.nameCacheDuration = none) :
    v.baseURL domain s now (some (GoErr.dnsError true)) a =
      ⟨some (Except.error (GoErr.dnsError true)), v.nameCache, true⟩ ∧
    v.baseURL domain s now none [] =
      ⟨some (Except.error (GoErr.generic "empty SRV response")), v.nameCache, true⟩ := by
  rw [baseURL_miss v domain s now _ _ hmiss, baseURL_miss v domain s now _ _ hmiss]
  exact ⟨rfl, rfl⟩

/-- C6 witness: timeout and empty-response resolutions on a fresh handle. -/
theorem baseURL_error_no_cache_witness :
    Libravatar.baseURL New "example.org" false 0 (some (GoErr.dnsError true)) [] =
      ⟨some (Except.error (GoErr.dnsError true)), New.nameCache, true⟩ ∧
    Libravatar.baseURL New "example.org" false 0 none [] =
      ⟨some (Except.error (GoErr.generic "empty SRV response")), New.nameCache, true⟩ :=
  baseURL_error_no_cache New "example.org" false 0 [] rfl

/-- C7: when DNS is consulted and reports a non-timeout failure, `baseURL`
returns scheme + configured fallback host with no error and writes the
fallback host as the cache entry for the key; every call within TTL of
that write is then served from the cache — same URL, no DNS query. -/
theorem baseURL_notfound_fallback (v : Libravatar) (domain : String) (s : Bool)
    (now : Nat) (a : List SRV)
    (hmiss : freshVal v.nameCache (keyOf s domain) now v.nameCacheDuration = none) :
    v.baseURL domain s now (some (GoErr.dnsError false)) a =
      ⟨some (Except.ok (schemeOf s ++ v.fallbackHost)),
        cachePut v.nameCache (keyOf s domain) ⟨v.fallbackHost, now⟩, true⟩ ∧
    ∀ (t1 : Nat) (e1 : Option GoErr) (a1 : List SRV),
      t1 - now ≤ v.nameCacheDuration →
      Libravatar.baseURL
          { v with nameCache := cachePut v.nameCache (keyOf s domain) ⟨v.fallbackHost, now⟩ }
          domain s t1 e1 a1 =
        ⟨some (Except.ok (schemeOf s ++ v.fallbackHost)),
          cachePut v.nameCache (keyOf s domain) ⟨v.fallbackHost, now⟩, false⟩ := by
  constructor
  · rw [baseURL_miss v domain s now _ _ hmiss]
    rfl
  · intro t1 e1 a1 ht
    have hfresh : freshVal (cachePut v.nameCache (keyOf s domain) ⟨v.fallbackHost, now⟩)
        (keyOf s domain) t1 v.nameCacheDuration = some ⟨v.fallbackHost, now⟩ :=
      freshVal_of_get _ _ _ _ _ (cacheGet_cachePut _ _ _) ht
    exact baseURL_hit
      { v with nameCache := cachePut v.nameCache (keyOf s domain) ⟨v.fallbackHost, now⟩ }
      domain s t1 e1 a1 ⟨v.fallbackHost, now⟩ hfresh

/-- C7 witness: a not-found resolution of `example.org` at time 0 yields
the default fallback and is served from the cache afterwards. -/
theorem baseURL_notfound_fallback_witness :
    Libravatar.baseURL New "example.org" false 0 (some (GoErr.dnsError false)) [] =
      ⟨some (Except.ok (schemeOf false ++ New.fallbackHost)),
        cachePut New.nameCache (keyOf false "example.org") ⟨New.fallbackHost, 0⟩, true⟩ ∧
    ∀ (t1 : Nat) (e1 : Option GoErr) (a1 : List SRV),
      t1 - 0 ≤ New.nameCacheDuration →
      Libravatar.baseURL
          { New with nameCache :=
              cachePut New.nameCache (keyOf false "example.org") ⟨New.fallbackHost, 0⟩ }
          "example.org" false t1 e1 a1 =
        ⟨some (Except.ok (schemeOf false ++ New.fallbackHost)),
          cachePut New.nameCache (keyOf false "example.org") ⟨New.fallbackHost, 0⟩, false⟩ :=
  baseURL_notfound_fallback New "example.org" false 0 [] rfl

end P0
